import Mathlib

set_option autoImplicit false

/-!
Shallow embedding of the call/usage-resolution engine of the dataset-generation
tool: the syntax-directed constraint-propagation callback
(`modified_handle_local_syntax_directed_typing_constraints.py`) and the
driver's per-node term store and module loops (`find_usages/__main__.py`).

AST nodes are identified by a stable node index (`NodeId`); the mutable
per-node runtime-term dictionary of the driver becomes an association list
from node ids to finite sets of runtime terms.  External collaborators that
live outside the analyzed files (constructor lookup, comprehensive class
dictionaries, attribute access, the def-use map) are parameters of the
environment, so every theorem below holds for all of their behaviours.
-/

namespace FindUsages

abbrev NodeId := Nat

/-- A live class object; identity is its defining module and qualified name
(the callback only ever reads `__module__` and `__name__`). -/
structure RuntimeClass where
  module : String
  name : String
deriving DecidableEq

/-- A native/unwrapped callable.  The callback reads its `__module__` and
`__name__`, and queries `inspect.getsourcelines` (start line plus number of
source lines) and `inspect.signature`; those reflection results are modelled
as fields, as they are functions of the callable object. -/
structure UnwrappedRuntimeFunction where
  module : String
  name : String
  srcStartLine : Nat
  srcNumLines : Nat
  signature : String
deriving DecidableEq

/-- `Function = FunctionDefinition | UnwrappedRuntimeFunction` from
`type_definitions`: a statically defined function (identified by its AST
node) or a native callable. -/
inductive Function where
  | functionDefinition (node : NodeId)
  | unwrapped (f : UnwrappedRuntimeFunction)
deriving DecidableEq

/-- The tagged-variant value domain `RuntimeTerm`. -/
inductive RuntimeTerm where
  | module (name : String)
  | runtimeClass (c : RuntimeClass)
  | inst (c : RuntimeClass)
  | functionDefinition (node : NodeId)
  | unwrapped (f : UnwrappedRuntimeFunction)
  | unboundMethod (c : RuntimeClass) (f : Function)
  | boundMethod (instClass : RuntimeClass) (f : Function)
deriving DecidableEq

/-- Values an `ast.Constant` node can carry (only the runtime type of the
value matters to the callback, via `type(node.value)`). -/
inductive ConstValue where
  | intLit (n : Int)
  | floatLit
  | strLit (s : String)
  | boolLit (b : Bool)
  | noneLit
  | ellipsisLit
  | bytesLit (bs : List Nat)
deriving DecidableEq

def intClass : RuntimeClass := ⟨"builtins", "int"⟩

def floatClass : RuntimeClass := ⟨"builtins", "float"⟩

def strClass : RuntimeClass := ⟨"builtins", "str"⟩

def boolClass : RuntimeClass := ⟨"builtins", "bool"⟩

def noneTypeClass : RuntimeClass := ⟨"builtins", "NoneType"⟩

def ellipsisClass : RuntimeClass := ⟨"builtins", "ellipsis"⟩

def bytesClass : RuntimeClass := ⟨"builtins", "bytes"⟩

def listClass : RuntimeClass := ⟨"builtins", "list"⟩

def tupleClass : RuntimeClass := ⟨"builtins", "tuple"⟩

def setClass : RuntimeClass := ⟨"builtins", "set"⟩

def dictClass : RuntimeClass := ⟨"builtins", "dict"⟩

def generatorClass : RuntimeClass := ⟨"collections.abc", "Generator"⟩

/-- `type(node.value)` for a constant node's value. -/
def ConstValue.pyType : ConstValue → RuntimeClass
  | .intLit _ => intClass
  | .floatLit => floatClass
  | .strLit _ => strClass
  | .boolLit _ => boolClass
  | .noneLit => noneTypeClass
  | .ellipsisLit => ellipsisClass
  | .bytesLit _ => bytesClass

/-- A Python `set` of runtime terms, as the list of its elements in insertion
order (iteration order of a Python set is arbitrary; theorems that depend on
it quantify over enumerations). -/
abbrev TermSet := List RuntimeTerm

/-- Adding one element to a Python set: a no-op when already present. -/
def setAdd (s : TermSet) (x : RuntimeTerm) : TermSet :=
  if x ∈ s then s else s ++ [x]

/-- `s.update(ts)`: add every element of `ts` to `s`. -/
def setUnion (s : TermSet) (ts : TermSet) : TermSet :=
  ts.foldl setAdd s

/-- The driver's `node_runtime_terms` dictionary, keyed by node identity. -/
abbrev TermStore := List (NodeId × TermSet)

/-- `get_runtime_terms`: `node_runtime_terms.get(node_, set())`. -/
def get_runtime_terms : TermStore → NodeId → TermSet
  | [], _ => []
  | (m, s) :: rest, n => if m = n then s else get_runtime_terms rest n

/-- `update_runtime_terms`:
`node_runtime_terms.setdefault(node_, set()).update(runtime_terms)`. -/
def update_runtime_terms : TermStore → NodeId → TermSet → TermStore
  | [], n, ts => [(n, setUnion [] ts)]
  | (m, s) :: rest, n, ts =>
      if m = n then (m, setUnion s ts) :: rest else (m, s) :: update_runtime_terms rest n ts

/-- The parameters of the callback, plus the external collaborators it calls:
the def-use map (`node_to_definition_node_mapping`), the bridge mappings,
`get_unwrapped_constructor`, the comprehensive class dictionary's unwrapped
entry for the name `__call__`, and `get_attribute_access_result`. -/
structure Env where
  moduleName : String
  classMap : NodeId → Option RuntimeClass
  uToFdef : UnwrappedRuntimeFunction → Option NodeId
  fdefToU : NodeId → Option UnwrappedRuntimeFunction
  defMap : NodeId → Option NodeId
  getCtor : RuntimeClass → UnwrappedRuntimeFunction
  dunderCall : RuntimeClass → Option UnwrappedRuntimeFunction
  getAttr : RuntimeTerm → String → Option RuntimeTerm

/-- `node_to_definition_node_mapping.get(node, node)`. -/
def Env.defOf (env : Env) (n : NodeId) : NodeId :=
  (env.defMap n).getD n

/-- `get_runtime_terms_of_definition_node`. -/
def get_runtime_terms_of_definition_node (env : Env) (st : TermStore) (n : NodeId) : TermSet :=
  get_runtime_terms st (env.defOf n)

/-- `update_runtime_terms_of_definition_node`. -/
def update_runtime_terms_of_definition_node (env : Env) (st : TermStore) (n : NodeId)
    (ts : TermSet) : TermStore :=
  update_runtime_terms st (env.defOf n) ts

/-- `update_runtime_terms_of_definition_node_from_runtime_class`. -/
def update_runtime_terms_of_definition_node_from_runtime_class (env : Env) (st : TermStore)
    (n : NodeId) (c : RuntimeClass) : TermStore :=
  update_runtime_terms_of_definition_node env st n [RuntimeTerm.inst c]

/-- The AST node shapes the callback dispatches on (`isinstance` chain);
child nodes are referenced by node id.  `other` covers every node kind the
callback ignores. -/
inductive NodeKind where
  | constant (v : ConstValue)
  | joinedStr
  | listDisplay
  | tupleDisplay
  | setDisplay
  | dictDisplay
  | call (func : NodeId)
  | attributeAccess (value : NodeId) (attr : String)
  | namedExpr (target : NodeId) (value : NodeId)
  | listComp
  | setComp
  | generatorExp
  | dictComp
  | assign (targets : List NodeId) (value : NodeId)
  | annAssign (target : NodeId) (annot : NodeId) (value : Option NodeId)
  | functionDef
  | asyncFunctionDef
  | lambdaDef
  | classDef
  | other
deriving DecidableEq

structure PyNode where
  nid : NodeId
  kind : NodeKind
  lineno : Option Nat
deriving DecidableEq

/-- A scope-providing node on the visitor's scope stack (§4.4: module,
function, lambda, comprehension); modelled with exactly the attributes the
callback reads through `getattr(_, attr, None)`.  `ast.Module` has no
`lineno`; lambdas and comprehensions have line spans but no `name`. -/
inductive ScopeNode where
  | moduleScope
  | functionDef (name : String) (lineno : Nat) (endLineno : Nat)
  | asyncFunctionDef (name : String) (lineno : Nat) (endLineno : Nat)
  | lambdaScope (lineno : Nat) (endLineno : Nat)
  | comprehensionScope (lineno : Nat) (endLineno : Nat)
deriving DecidableEq

/-- `getattr(scope, 'name', None)`. -/
def ScopeNode.getName : ScopeNode → Option String
  | .functionDef n _ _ => some n
  | .asyncFunctionDef n _ _ => some n
  | _ => none

/-- `getattr(scope, 'lineno', None)`. -/
def ScopeNode.getLineno : ScopeNode → Option Nat
  | .moduleScope => none
  | .functionDef _ l _ => some l
  | .asyncFunctionDef _ l _ => some l
  | .lambdaScope l _ => some l
  | .comprehensionScope l _ => some l

/-- `getattr(scope, 'end_lineno', None)`. -/
def ScopeNode.getEndLineno : ScopeNode → Option Nat
  | .moduleScope => none
  | .functionDef _ _ e => some e
  | .asyncFunctionDef _ _ e => some e
  | .lambdaScope _ e => some e
  | .comprehensionScope _ e => some e

/-- The caller-side fields of a call-site record, computed once per call node
from the module name, the node and the scope stack (lines 98-102). -/
structure CallerInfo where
  moduleName : String
  functionName : Option String
  callLine : Option Nat
  startLine : Option Nat
  endLine : Option Nat
deriving DecidableEq

def callerInfoOf (moduleName : String) (node : PyNode) (ss : List ScopeNode) : CallerInfo :=
  ⟨moduleName,
   match ss.getLast? with
   | some s => s.getName
   | none => none,
   node.lineno,
   match ss.getLast? with
   | some s => s.getLineno
   | none => none,
   match ss.getLast? with
   | some s => s.getEndLineno
   | none => none⟩

/-- The four local variables `callee_module_name`, `callee_class_name`,
`callee_function_name`, `callee_function`, which every resolving branch of
the candidate loop assigns together. -/
structure EmitInfo where
  calleeModuleName : String
  calleeClassName : String
  calleeFunctionName : String
  calleeFunction : UnwrappedRuntimeFunction
deriving DecidableEq

/-- Python truthiness of the guard
`callee_module_name and callee_class_name and callee_function_name`
(an assigned name is truthy iff the string is non-empty). -/
def EmitInfo.truthy (i : EmitInfo) : Bool :=
  !(i.calleeModuleName == "") && !(i.calleeClassName == "") && !(i.calleeFunctionName == "")

/-- What one candidate term contributes to the `callee_*` variables: `some`
iff the candidate's branch assigns them (lines 106-172), with the values it
assigns. -/
def resolveCandidate (env : Env) : RuntimeTerm → Option EmitInfo
  | .runtimeClass c =>
      let ctor := env.getCtor c
      if (env.uToFdef ctor).isSome then some ⟨c.module, c.name, ctor.name, ctor⟩ else none
  | .functionDefinition nid =>
      match env.fdefToU nid with
      | some u => some ⟨u.module, "global", u.name, u⟩
      | none => none
  | .unwrapped u =>
      if (env.uToFdef u).isSome then some ⟨u.module, "global", u.name, u⟩ else none
  | .unboundMethod c f =>
      match f with
      | .functionDefinition nid =>
          match env.fdefToU nid with
          | some u => some ⟨c.module, c.name, u.name, u⟩
          | none => none
      | .unwrapped u =>
          if (env.uToFdef u).isSome then some ⟨c.module, c.name, u.name, u⟩ else none
  | .inst c =>
      match env.dunderCall c with
      | some u => if (env.uToFdef u).isSome then some ⟨c.module, c.name, u.name, u⟩ else none
      | none => none
  | .boundMethod ic f =>
      match f with
      | .functionDefinition nid =>
          match env.fdefToU nid with
          | some u => some ⟨ic.module, ic.name, u.name, u⟩
          | none => none
      | .unwrapped u =>
          if (env.uToFdef u).isSome then some ⟨ic.module, ic.name, u.name, u⟩ else none
  | .module _ => none

/-- One printed call-site line, field by field (line 178). -/
structure CallSiteRecord where
  calleeModuleName : String
  calleeClassName : String
  calleeFunctionName : String
  calleeStartLine : Nat
  calleeEndLine : Nat
  callerModuleName : String
  callerFunctionName : Option String
  callLine : Option Nat
  callerFunctionStart : Option Nat
  callerFunctionEnd : Option Nat
  signature : String
deriving DecidableEq

/-- Assemble the record printed for the current `callee_*` values:
`inspect.getsourcelines` gives the start line and the line count, the end
line is `start_line + len(source_lines) - 1`. -/
def mkRecord (ci : CallerInfo) (i : EmitInfo) : CallSiteRecord :=
  ⟨i.calleeModuleName, i.calleeClassName, i.calleeFunctionName,
   i.calleeFunction.srcStartLine,
   i.calleeFunction.srcStartLine + i.calleeFunction.srcNumLines - 1,
   ci.moduleName, ci.functionName, ci.callLine, ci.startLine, ci.endLine,
   i.calleeFunction.signature⟩

/-- How Python's f-string renders an `Optional[str]` field. -/
def pyShowStr : Option String → String
  | none => "None"
  | some s => s

/-- How Python's f-string renders an `Optional[int]` field. -/
def pyShowNat : Option Nat → String
  | none => "None"
  | some n => toString n

/-- The comma-separated line actually printed, with the signature field
double-quoted. -/
def CallSiteRecord.printedLine (r : CallSiteRecord) : String :=
  r.calleeModuleName ++ "," ++ r.calleeClassName ++ "," ++ r.calleeFunctionName ++ ","
    ++ toString r.calleeStartLine ++ "," ++ toString r.calleeEndLine ++ ","
    ++ r.callerModuleName ++ "," ++ pyShowStr r.callerFunctionName ++ ","
    ++ pyShowNat r.callLine ++ "," ++ pyShowNat r.callerFunctionStart ++ ","
    ++ pyShowNat r.callerFunctionEnd ++ ",\"" ++ r.signature ++ "\""

/-- Loop state of `for runtime_term in get_runtime_terms_of_definition_node(node.func)`:
the `callee_*` variables (which persist across iterations), the term store,
and the records printed so far. -/
structure CallLoopState where
  acc : Option EmitInfo
  store : TermStore
  emitted : List CallSiteRecord

/-- One iteration of the candidate loop (lines 105-178): a resolving branch
overwrites the `callee_*` variables, a `RuntimeClass` candidate additionally
adds `Instance(class)` to the call node's definition node `d`, and a record
is printed whenever the (possibly stale) `callee_*` variables are truthy. -/
def callStep (env : Env) (ci : CallerInfo) (d : NodeId) (s : CallLoopState)
    (t : RuntimeTerm) : CallLoopState :=
  let acc : Option EmitInfo :=
    match resolveCandidate env t with
    | some i => some i
    | none => s.acc
  let store : TermStore :=
    match t with
    | .runtimeClass c => update_runtime_terms s.store d [RuntimeTerm.inst c]
    | _ => s.store
  let emitted : List CallSiteRecord :=
    match acc with
    | some i => if i.truthy then s.emitted ++ [mkRecord ci i] else s.emitted
    | none => s.emitted
  ⟨acc, store, emitted⟩

/-- The whole candidate loop of the `ast.Call` branch, over the iteration
order `candidates` of the callee's term set. -/
def processCallCandidates (env : Env) (ci : CallerInfo) (d : NodeId)
    (st : TermStore) (candidates : List RuntimeTerm) : CallLoopState :=
  candidates.foldl (callStep env ci d) ⟨none, st, []⟩

/-- The attribute-access branch's result set: each candidate's
`get_attribute_access_result`, dropping `None` results, collected into a set
(lines 183-192). -/
def attributeResults (env : Env) (candidates : List RuntimeTerm) (attr : String) : TermSet :=
  setUnion [] (candidates.filterMap (fun t => env.getAttr t attr))

/-- The chain of transfers performed by the `ast.Assign` branch:
`itertools.pairwise(reversed(node.targets + [node.value]))`, each pair
transferring the left element's terms to the right element's definition
node. -/
def runAssign (env : Env) (st : TermStore) (targets : List NodeId) (value : NodeId) :
    TermStore :=
  let chain := (targets ++ [value]).reverse
  (chain.zip chain.tail).foldl
    (fun s p =>
      update_runtime_terms_of_definition_node env s p.2
        (get_runtime_terms_of_definition_node env s p.1)) st

/-- `handle_local_syntax_directed_typing_constraints_callback`: the
syntax-directed rule applied to one visited node, returning the new term
store and the records printed while handling the node.  Set iteration order
for the call branch is the canonical enumeration of the finite set; the
theorems about the call branch quantify over arbitrary enumerations. -/
def handleNode (env : Env) (node : PyNode) (ss : List ScopeNode) (st : TermStore) :
    TermStore × List CallSiteRecord :=
  match node.kind with
  | .constant v =>
      (update_runtime_terms_of_definition_node_from_runtime_class env st node.nid v.pyType, [])
  | .joinedStr =>
      (update_runtime_terms_of_definition_node_from_runtime_class env st node.nid strClass, [])
  | .listDisplay =>
      (update_runtime_terms_of_definition_node_from_runtime_class env st node.nid listClass, [])
  | .tupleDisplay =>
      (update_runtime_terms_of_definition_node_from_runtime_class env st node.nid tupleClass, [])
  | .setDisplay =>
      (update_runtime_terms_of_definition_node_from_runtime_class env st node.nid setClass, [])
  | .dictDisplay =>
      (update_runtime_terms_of_definition_node_from_runtime_class env st node.nid dictClass, [])
  | .call func =>
      let ci := callerInfoOf env.moduleName node ss
      let candidates := get_runtime_terms_of_definition_node env st func
      let s := processCallCandidates env ci (env.defOf node.nid) st candidates
      (s.store, s.emitted)
  | .attributeAccess value attr =>
      let candidates := get_runtime_terms_of_definition_node env st value
      (update_runtime_terms_of_definition_node env st node.nid
        (attributeResults env candidates attr), [])
  | .namedExpr target value =>
      (update_runtime_terms_of_definition_node env st target
        (get_runtime_terms_of_definition_node env st value), [])
  | .listComp =>
      (update_runtime_terms_of_definition_node_from_runtime_class env st node.nid listClass, [])
  | .setComp =>
      (update_runtime_terms_of_definition_node_from_runtime_class env st node.nid setClass, [])
  | .generatorExp =>
      (update_runtime_terms_of_definition_node_from_runtime_class env st node.nid
        generatorClass, [])
  | .dictComp =>
      (update_runtime_terms_of_definition_node_from_runtime_class env st node.nid dictClass, [])
  | .assign targets value =>
      (runAssign env st targets value, [])
  | .annAssign target _ value? =>
      match value? with
      | some v =>
          (update_runtime_terms_of_definition_node env st target
            (get_runtime_terms_of_definition_node env st v), [])
      | none => (st, [])
  | .functionDef =>
      (update_runtime_terms_of_definition_node env st node.nid
        [RuntimeTerm.functionDefinition node.nid], [])
  | .asyncFunctionDef =>
      (update_runtime_terms_of_definition_node env st node.nid
        [RuntimeTerm.functionDefinition node.nid], [])
  | .lambdaDef =>
      (update_runtime_terms_of_definition_node env st node.nid
        [RuntimeTerm.functionDefinition node.nid], [])
  | .classDef =>
      match env.classMap node.nid with
      | some c =>
          (update_runtime_terms_of_definition_node env st node.nid
            [RuntimeTerm.runtimeClass c], [])
      | none => (st, [])
  | .other => (st, [])

/-- Exceptions relevant to the driver's module loops. -/
inductive PyExc where
  | importError
  | unicodeError
  | parseError
  | valueError
  | otherError (msg : String)
deriving DecidableEq

/-- The exception classes handled by `except (ImportError, UnicodeError)`
in the driver's module-import loop (lines 68-76 of `__main__.py`); every
other exception class propagates out of the loop. -/
def caughtByImportLoop : PyExc → Bool
  | .importError => true
  | .unicodeError => true
  | _ => false

/-- The driver's module-import loop: each module's read/parse/import attempt
either yields a value or raises.  A caught exception logs and skips the
module; an uncaught exception aborts the whole loop (and the run, since no
outer handler exists). -/
def importModulesLoop {α : Type} : List (String × Except PyExc α) → Except PyExc (List (String × α))
  | [] => .ok []
  | (name, r) :: rest =>
      match r with
      | .ok a => (importModulesLoop rest).map (fun l => (name, a) :: l)
      | .error e => if caughtByImportLoop e then importModulesLoop rest else .error e

/-- The driver's per-module analysis loop (lines 116-206 of `__main__.py`):
it contains no exception handler at all, so any exception raised while
analyzing one module aborts the loop before the remaining modules run. -/
def analyzeModulesLoop {α β : Type} (f : String → α → Except PyExc β) :
    List (String × α) → Except PyExc (List β)
  | [] => .ok []
  | (name, a) :: rest =>
      match f name a with
      | .ok b => (analyzeModulesLoop f rest).map (fun l => b :: l)
      | .error e => .error e

/-! ### Derived characterizations of the call loop, used in theorem statements -/

/-- The value of the `callee_*` variables after one iteration. -/
def newAcc (env : Env) (acc : Option EmitInfo) (t : RuntimeTerm) : Option EmitInfo :=
  match resolveCandidate env t with
  | some i => some i
  | none => acc

/-- The store after one iteration's side effect (only a `RuntimeClass`
candidate touches the store, adding `Instance(class)` under the call node's
definition node `d`). -/
def newStore (d : NodeId) (st : TermStore) (t : RuntimeTerm) : TermStore :=
  match t with
  | RuntimeTerm.runtimeClass c => update_runtime_terms st d [RuntimeTerm.inst c]
  | _ => st

/-- The records printed at the end of one iteration, given the current
`callee_*` variables. -/
def emitNow (ci : CallerInfo) : Option EmitInfo → List CallSiteRecord
  | some i => if i.truthy then [mkRecord ci i] else []
  | none => []

/-- The candidates of an iteration order that resolve, with truthy names, in
order. -/
def resolvedInfos (env : Env) (l : List RuntimeTerm) : List EmitInfo :=
  (l.filterMap (resolveCandidate env)).filter (fun i => i.truthy)

/-- The `Instance(class)` terms contributed to the call node by the
`RuntimeClass` candidates of an iteration order. -/
def classInstanceGain (l : List RuntimeTerm) : List RuntimeTerm :=
  l.filterMap (fun t =>
    match t with
    | RuntimeTerm.runtimeClass c => some (RuntimeTerm.inst c)
    | _ => none)

/-- The records that the loop's stale `callee_*` variables replay before the
first resolving candidate overwrites them. -/
def staleList (env : Env) (ci : CallerInfo) (acc : Option EmitInfo) :
    List RuntimeTerm → List CallSiteRecord
  | [] => []
  | t :: _ =>
      if resolveCandidate env t = none then emitNow ci acc else []

/-- The assignment chain as explicit sequential transfers: transfer `src`'s
terms to the first node, that node's terms to the second, and so on. -/
def transferChain (env : Env) : TermStore → NodeId → List NodeId → TermStore
  | st, _, [] => st
  | st, src, t :: rest =>
      transferChain env
        (update_runtime_terms_of_definition_node env st t
          (get_runtime_terms_of_definition_node env st src))
        t rest

/-! ### Concrete inputs used by closed theorems and witnesses -/

/-- A placeholder native callable (used where an environment field is never
consulted). -/
def defaultU : UnwrappedRuntimeFunction := ⟨"", "", 0, 1, ""⟩

/-- The bridged native counterpart of `def foo(x): pass` at line 1 of module
`mod_a`. -/
def exampleFooU : UnwrappedRuntimeFunction := ⟨"mod_a", "foo", 1, 1, "(x)"⟩

/-- Environment for a module `mod_a` in which function-definition node 10
(`foo`) is bridged to `exampleFooU` and the call's callee name node 21
resolves to definition node 10. -/
def exampleEnv : Env :=
  ⟨"mod_a", fun _ => none, fun _ => none,
   fun n => if n = 10 then some exampleFooU else none,
   fun n => if n = 21 then some 10 else none,
   fun _ => defaultU, fun _ => none, fun _ _ => none⟩

/-- Caller-side fields of a call at line 7 inside `bar` (lines 5-9). -/
def exampleCI : CallerInfo := ⟨"mod_a", some "bar", some 7, some 5, some 9⟩

/-- The call node `foo(1)` at line 7; its callee expression is node 21. -/
def exampleCallNode : PyNode := ⟨20, NodeKind.call 21, some 7⟩

/-- Scope stack for a call written directly inside `def bar` (lines 5-9). -/
def exampleScopes : List ScopeNode :=
  [ScopeNode.moduleScope, ScopeNode.functionDef "bar" 5 9]

/-- Store after `foo`'s definition node 10 received its own
`FunctionDefinition` term. -/
def exampleStore : TermStore := [(10, [RuntimeTerm.functionDefinition 10])]

/-- The single record the call `foo(1)` in `bar` must produce. -/
def exampleRecord : CallSiteRecord :=
  ⟨"mod_a", "global", "foo", 1, 1, "mod_a", some "bar", some 7, some 5, some 9, "(x)"⟩

/-- A class of `mod_a` whose unwrapped constructor is known to the bridge. -/
def exampleK : RuntimeClass := ⟨"mod_a", "K"⟩

/-- The unwrapped constructor of `exampleK` (a source-defined `__init__` at
lines 3-4). -/
def exampleCtorU : UnwrappedRuntimeFunction := ⟨"mod_a", "__init__", 3, 2, "(self)"⟩

/-- Environment in which every class's unwrapped constructor is
`exampleCtorU`, which is present in the native-to-definition mapping (entry
node 30). -/
def exampleEnvK : Env :=
  ⟨"mod_a", fun _ => none,
   fun u => if u = exampleCtorU then some 30 else none,
   fun _ => none, fun _ => none, fun _ => exampleCtorU, fun _ => none, fun _ _ => none⟩

/-- Store giving the chained assignment's value node 3 the term set
`{Instance(C)}`. -/
def exampleAssignStore : TermStore := [(3, [RuntimeTerm.inst ⟨"mod_a", "C"⟩])]

/-- The statement `a = b = f()` with targets `a` = node 1, `b` = node 2 and
the call `f()` = node 3. -/
def exampleAssignNode : PyNode := ⟨4, NodeKind.assign [1, 2] 3, some 2⟩

/-- Scope stack of a call sitting inside a lambda that is itself nested in a
named function (lines 1-9); the lambda spans line 5. -/
def exampleLambdaScopes : List ScopeNode :=
  [ScopeNode.moduleScope, ScopeNode.functionDef "named" 1 9, ScopeNode.lambdaScope 5 5]

/-- The callback with the iteration order of Python sets made explicit: the
call and attribute-access branches iterate a term set in an order the
language does not specify, so the enumeration used is a parameter `e`
(constrained to be a permutation of the stored elements where this
matters).  `handleNode` is exactly this callback at the insertion-order
enumeration (`handleNodeEnum_id`). -/
def handleNodeEnum (env : Env) (e : List RuntimeTerm → List RuntimeTerm)
    (node : PyNode) (ss : List ScopeNode) (st : TermStore) :
    TermStore × List CallSiteRecord :=
  match node.kind with
  | .constant v =>
      (update_runtime_terms_of_definition_node_from_runtime_class env st node.nid v.pyType, [])
  | .joinedStr =>
      (update_runtime_terms_of_definition_node_from_runtime_class env st node.nid strClass, [])
  | .listDisplay =>
      (update_runtime_terms_of_definition_node_from_runtime_class env st node.nid listClass, [])
  | .tupleDisplay =>
      (update_runtime_terms_of_definition_node_from_runtime_class env st node.nid tupleClass, [])
  | .setDisplay =>
      (update_runtime_terms_of_definition_node_from_runtime_class env st node.nid setClass, [])
  | .dictDisplay =>
      (update_runtime_terms_of_definition_node_from_runtime_class env st node.nid dictClass, [])
  | .call func =>
      let ci := callerInfoOf env.moduleName node ss
      let candidates := e (get_runtime_terms_of_definition_node env st func)
      let s := processCallCandidates env ci (env.defOf node.nid) st candidates
      (s.store, s.emitted)
  | .attributeAccess value attr =>
      let candidates := e (get_runtime_terms_of_definition_node env st value)
      (update_runtime_terms_of_definition_node env st node.nid
        (attributeResults env candidates attr), [])
  | .namedExpr target value =>
      (update_runtime_terms_of_definition_node env st target
        (get_runtime_terms_of_definition_node env st value), [])
  | .listComp =>
      (update_runtime_terms_of_definition_node_from_runtime_class env st node.nid listClass, [])
  | .setComp =>
      (update_runtime_terms_of_definition_node_from_runtime_class env st node.nid setClass, [])
  | .generatorExp =>
      (update_runtime_terms_of_definition_node_from_runtime_class env st node.nid
        generatorClass, [])
  | .dictComp =>
      (update_runtime_terms_of_definition_node_from_runtime_class env st node.nid dictClass, [])
  | .assign targets value =>
      (runAssign env st targets value, [])
  | .annAssign target _ value? =>
      match value? with
      | some v =>
          (update_runtime_terms_of_definition_node env st target
            (get_runtime_terms_of_definition_node env st v), [])
      | none => (st, [])
  | .functionDef =>
      (update_runtime_terms_of_definition_node env st node.nid
        [RuntimeTerm.functionDefinition node.nid], [])
  | .asyncFunctionDef =>
      (update_runtime_terms_of_definition_node env st node.nid
        [RuntimeTerm.functionDefinition node.nid], [])
  | .lambdaDef =>
      (update_runtime_terms_of_definition_node env st node.nid
        [RuntimeTerm.functionDefinition node.nid], [])
  | .classDef =>
      match env.classMap node.nid with
      | some c =>
          (update_runtime_terms_of_definition_node env st node.nid
            [RuntimeTerm.runtimeClass c], [])
      | none => (st, [])
  | .other => (st, [])

/-- One whole pass of the constraint engine: the scoped visitor's visit
sequence (each visited node with its scope stack — deterministic for a
given module tree, per spec 4.4) folded over the callback, accumulating the
printed records.  `oracle k` chooses the set-enumeration used at the k-th
visited node; a run of the engine corresponds to one oracle whose choices
are permutations of the stored elements. -/
def runPass (env : Env) (oracle : Nat → List RuntimeTerm → List RuntimeTerm) :
    List (PyNode × List ScopeNode) → Nat → TermStore → List CallSiteRecord →
      TermStore × List CallSiteRecord
  | [], _, st, recs => (st, recs)
  | (node, ss) :: rest, k, st, recs =>
      let r := handleNodeEnum env (oracle k) node ss st
      runPass env oracle rest (k + 1) r.1 (recs ++ r.2)

/-- Store in which the call's callee carries both a bridged function term
and an unresolvable `Instance` term, so that enumeration order changes the
printed record list (C1) but not its set. -/
def exampleStaleStore : TermStore :=
  [(10, [RuntimeTerm.functionDefinition 10, RuntimeTerm.inst ⟨"mod_a", "C"⟩])]

end FindUsages

namespace FindUsages

lemma mem_setAdd {s : TermSet} {x y : RuntimeTerm} : y ∈ setAdd s x ↔ y ∈ s ∨ y = x := by
  by_cases h : x ∈ s
  · simp only [setAdd, if_pos h]
    constructor
    · exact Or.inl
    · rintro (hy | rfl)
      · exact hy
      · exact h
  · simp [setAdd, if_neg h]

lemma mem_setUnion {s ts : TermSet} {y : RuntimeTerm} : y ∈ setUnion s ts ↔ y ∈ s ∨ y ∈ ts := by
  induction ts generalizing s with
  | nil => simp [setUnion]
  | cons t ts ih =>
      have h : setUnion s (t :: ts) = setUnion (setAdd s t) ts := rfl
      rw [h, ih, mem_setAdd]
      simp [or_assoc]

lemma setUnion_toFinset (s ts : TermSet) : (setUnion s ts).toFinset = s.toFinset ∪ ts.toFinset := by
  ext y
  simp [List.mem_toFinset, mem_setUnion]

lemma get_update (st : TermStore) (n : NodeId) (ts : TermSet) (m : NodeId) :
    get_runtime_terms (update_runtime_terms st n ts) m =
      if m = n then setUnion (get_runtime_terms st m) ts else get_runtime_terms st m := by
  induction st with
  | nil =>
      by_cases h : n = m
      · subst h
        simp [update_runtime_terms, get_runtime_terms]
      · simp [update_runtime_terms, get_runtime_terms, h, Ne.symm h]
  | cons p rest ih =>
      obtain ⟨k, s⟩ := p
      by_cases hkn : k = n
      · subst hkn
        by_cases hmk : m = k
        · subst hmk
          simp [update_runtime_terms, get_runtime_terms]
        · simp [update_runtime_terms, get_runtime_terms, hmk, Ne.symm hmk]
      · by_cases hmk : m = k
        · subst hmk
          simp [update_runtime_terms, get_runtime_terms, hkn]
        · simp [update_runtime_terms, get_runtime_terms, hkn, hmk, Ne.symm hmk, ih]

lemma append_emit (a : List CallSiteRecord) (b : Bool) (r : CallSiteRecord) :
    (if b = true then a ++ [r] else a) = a ++ (if b = true then [r] else []) := by
  cases b <;> simp

lemma callStep_def (env : Env) (ci : CallerInfo) (d : NodeId) (s : CallLoopState)
    (t : RuntimeTerm) :
    callStep env ci d s t =
      ⟨newAcc env s.acc t, newStore d s.store t,
       s.emitted ++ emitNow ci (newAcc env s.acc t)⟩ := by
  cases hr : resolveCandidate env t <;>
    cases t <;>
      cases hacc : s.acc <;>
        simp [callStep, newAcc, newStore, emitNow, hr, hacc, append_emit]

lemma mem_staleList {env : Env} {ci : CallerInfo} {acc : Option EmitInfo}
    {l : List RuntimeTerm} {x : CallSiteRecord} (h : x ∈ staleList env ci acc l) :
    x ∈ emitNow ci acc := by
  cases l with
  | nil => simp [staleList] at h
  | cons t l =>
      simp only [staleList] at h
      revert h
      split <;> intro h
      · exact h
      · simp at h

lemma mem_foldl_callStep_emitted (env : Env) (ci : CallerInfo) (d : NodeId) :
    ∀ (l : List RuntimeTerm) (s : CallLoopState) (x : CallSiteRecord),
      (x ∈ (List.foldl (callStep env ci d) s l).emitted ↔
        x ∈ s.emitted ∨ x ∈ (resolvedInfos env l).map (mkRecord ci) ∨
          x ∈ staleList env ci s.acc l) := by
  intro l
  induction l with
  | nil => intro s x; simp [resolvedInfos, staleList]
  | cons t l ih =>
      intro s x
      rw [List.foldl_cons, callStep_def, ih]
      cases hr : resolveCandidate env t with
      | some i =>
          have hacc : newAcc env s.acc t = some i := by simp [newAcc, hr]
          rw [hacc]
          have hres : resolvedInfos env (t :: l) =
              if i.truthy = true then i :: resolvedInfos env l else resolvedInfos env l := by
            simp only [resolvedInfos, List.filterMap_cons, hr, List.filter_cons]
          have hstale : staleList env ci s.acc (t :: l) = [] := by
            simp [staleList, hr]
          rw [hres, hstale]
          have hsub : x ∈ staleList env ci (some i) l → x ∈ emitNow ci (some i) :=
            mem_staleList
          by_cases ht : i.truthy = true
          · simp only [ht, if_pos, emitNow] at hsub ⊢
            simp only [List.mem_append, List.mem_singleton, List.map_cons,
              List.mem_cons, List.not_mem_nil, or_false] at hsub ⊢
            tauto
          · simp only [ht, if_neg, emitNow, Bool.false_eq_true] at hsub ⊢
            simp only [List.mem_append, List.not_mem_nil, or_false] at hsub ⊢
            tauto
      | none =>
          have hacc : newAcc env s.acc t = s.acc := by simp [newAcc, hr]
          rw [hacc]
          have hres : resolvedInfos env (t :: l) = resolvedInfos env l := by
            simp [resolvedInfos, List.filterMap_cons, hr]
          have hstale : staleList env ci s.acc (t :: l) = emitNow ci s.acc := by
            simp [staleList, hr]
          rw [hres, hstale]
          have hsub : x ∈ staleList env ci s.acc l → x ∈ emitNow ci s.acc :=
            mem_staleList
          simp only [List.mem_append] at hsub ⊢
          tauto

lemma mem_processCallCandidates_emitted (env : Env) (ci : CallerInfo) (d : NodeId)
    (st : TermStore) (l : List RuntimeTerm) (x : CallSiteRecord) :
    x ∈ (processCallCandidates env ci d st l).emitted ↔
      x ∈ (resolvedInfos env l).map (mkRecord ci) := by
  rw [processCallCandidates, mem_foldl_callStep_emitted]
  have h : x ∈ staleList env ci (none : Option EmitInfo) l → False := by
    intro h
    have := mem_staleList h
    simp [emitNow] at this
  simp only [List.not_mem_nil, false_or]
  tauto


lemma setUnion_cons (s : TermSet) (x : RuntimeTerm) (ts : TermSet) :
    setUnion s (x :: ts) = setUnion (setAdd s x) ts := rfl

lemma setUnion_nil (s : TermSet) : setUnion s [] = s := rfl

lemma foldl_callStep_store (env : Env) (ci : CallerInfo) (d : NodeId) :
    ∀ (l : List RuntimeTerm) (s : CallLoopState) (m : NodeId),
      get_runtime_terms (List.foldl (callStep env ci d) s l).store m =
        if m = d then setUnion (get_runtime_terms s.store m) (classInstanceGain l)
        else get_runtime_terms s.store m := by
  intro l
  induction l with
  | nil =>
      intro s m
      by_cases h : m = d <;> simp [h, classInstanceGain, setUnion_nil]
  | cons t l ih =>
      intro s m
      rw [List.foldl_cons, callStep_def, ih]
      cases t with
      | runtimeClass c =>
          have hst : newStore d s.store (RuntimeTerm.runtimeClass c) =
              update_runtime_terms s.store d [RuntimeTerm.inst c] := rfl
          have hg : classInstanceGain (RuntimeTerm.runtimeClass c :: l) =
              RuntimeTerm.inst c :: classInstanceGain l := by
            simp [classInstanceGain, List.filterMap_cons]
          rw [hst, hg]
          by_cases h : m = d
          · subst h
            rw [get_update]
            simp [setUnion_cons, setUnion_nil]
          · rw [get_update]
            simp [h]
      | module name => simp [newStore, classInstanceGain, List.filterMap_cons]
      | inst c => simp [newStore, classInstanceGain, List.filterMap_cons]
      | functionDefinition n => simp [newStore, classInstanceGain, List.filterMap_cons]
      | unwrapped f => simp [newStore, classInstanceGain, List.filterMap_cons]
      | unboundMethod c f => simp [newStore, classInstanceGain, List.filterMap_cons]
      | boundMethod c f => simp [newStore, classInstanceGain, List.filterMap_cons]

lemma processCallCandidates_store (env : Env) (ci : CallerInfo) (d : NodeId)
    (st : TermStore) (l : List RuntimeTerm) (m : NodeId) :
    get_runtime_terms (processCallCandidates env ci d st l).store m =
      if m = d then setUnion (get_runtime_terms st m) (classInstanceGain l)
      else get_runtime_terms st m := by
  rw [processCallCandidates, foldl_callStep_store]

lemma mem_emitNow_caller {ci : CallerInfo} {acc : Option EmitInfo} {r : CallSiteRecord}
    (h : r ∈ emitNow ci acc) : ∃ i, r = mkRecord ci i := by
  cases acc with
  | none => simp [emitNow] at h
  | some i =>
      simp only [emitNow] at h
      revert h
      split <;> intro h
      · simp at h
        exact ⟨i, h⟩
      · simp at h

lemma foldl_callStep_caller (env : Env) (ci : CallerInfo) (d : NodeId) :
    ∀ (l : List RuntimeTerm) (s : CallLoopState) (r : CallSiteRecord),
      r ∈ (List.foldl (callStep env ci d) s l).emitted →
        r ∈ s.emitted ∨ ∃ i, r = mkRecord ci i := by
  intro l
  induction l with
  | nil => intro s r h; exact Or.inl h
  | cons t l ih =>
      intro s r h
      rw [List.foldl_cons, callStep_def] at h
      rcases ih _ r h with h2 | h2
      · simp only [List.mem_append] at h2
        rcases h2 with h3 | h3
        · exact Or.inl h3
        · exact Or.inr (mem_emitNow_caller h3)
      · exact Or.inr h2

lemma processCallCandidates_caller (env : Env) (ci : CallerInfo) (d : NodeId)
    (st : TermStore) (l : List RuntimeTerm) (r : CallSiteRecord)
    (h : r ∈ (processCallCandidates env ci d st l).emitted) :
    ∃ i, r = mkRecord ci i := by
  rcases foldl_callStep_caller env ci d l _ r h with h2 | h2
  · simp at h2
  · exact h2

lemma transferChain_get_outside (env : Env) :
    ∀ (l : List NodeId) (src : NodeId) (st : TermStore) (m : NodeId),
      m ∉ l.map env.defOf →
        get_runtime_terms (transferChain env st src l) m = get_runtime_terms st m := by
  intro l
  induction l with
  | nil => intro src st m _; rfl
  | cons t rest ih =>
      intro src st m hm
      simp only [List.map_cons, List.mem_cons, not_or] at hm
      rw [transferChain, ih _ _ _ hm.2]
      rw [update_runtime_terms_of_definition_node, get_update]
      simp [hm.1]

lemma transferChain_mono (env : Env) :
    ∀ (l : List NodeId) (src : NodeId) (st : TermStore) (m : NodeId) (x : RuntimeTerm),
      x ∈ get_runtime_terms st m → x ∈ get_runtime_terms (transferChain env st src l) m := by
  intro l
  induction l with
  | nil => intro src st m x h; exact h
  | cons t rest ih =>
      intro src st m x h
      rw [transferChain]
      apply ih
      rw [update_runtime_terms_of_definition_node, get_update]
      by_cases hm : m = env.defOf t
      · simp only [hm, if_pos rfl]
        exact mem_setUnion.mpr (Or.inl (hm ▸ h))
      · simp [hm, h]

lemma transferChain_main (env : Env) :
    ∀ (l : List NodeId) (src : NodeId) (st : TermStore),
      (l.map env.defOf).Nodup →
      (∀ t ∈ l, get_runtime_terms st (env.defOf t) = []) →
      ∀ t ∈ l,
        (get_runtime_terms (transferChain env st src l) (env.defOf t)).toFinset =
          (get_runtime_terms st (env.defOf src)).toFinset := by
  intro l
  induction l with
  | nil => intro src st _ _ t ht; simp at ht
  | cons t0 rest ih =>
      intro src st hnd hfresh t ht
      simp only [List.map_cons, List.nodup_cons] at hnd
      have hfresh0 : get_runtime_terms st (env.defOf t0) = [] :=
        hfresh t0 (List.mem_cons_self t0 rest)
      set st1 := update_runtime_terms_of_definition_node env st t0
        (get_runtime_terms_of_definition_node env st src) with hst1
      have hget1 : get_runtime_terms st1 (env.defOf t0) =
          setUnion [] (get_runtime_terms st (env.defOf src)) := by
        rw [hst1, update_runtime_terms_of_definition_node, get_update]
        simp [hfresh0, get_runtime_terms_of_definition_node]
      rcases List.mem_cons.mp ht with rfl | hrest
      · rw [transferChain]
        rw [transferChain_get_outside env rest t st1 (env.defOf t) hnd.1]
        rw [hget1]
        ext y
        simp [List.mem_toFinset, mem_setUnion]
      · rw [transferChain]
        have hres := ih t0 st1 hnd.2 ?_ t hrest
        · rw [hres, hget1]
          ext y
          simp [List.mem_toFinset, mem_setUnion]
        · intro u hu
          have hne : env.defOf u ≠ env.defOf t0 := by
            intro he
            exact hnd.1 (he ▸ List.mem_map_of_mem env.defOf hu)
          rw [hst1, update_runtime_terms_of_definition_node, get_update]
          simp only [hne, if_neg]
          exact hfresh u (List.mem_cons_of_mem t0 hu)

end FindUsages
namespace FindUsages

lemma setUnion_nil_single (x : RuntimeTerm) : setUnion [] [x] = [x] := by
  simp [setUnion, setAdd]

lemma update_mono {st : TermStore} {n : NodeId} {ts : TermSet} {m : NodeId}
    {x : RuntimeTerm} (h : x ∈ get_runtime_terms st m) :
    x ∈ get_runtime_terms (update_runtime_terms st n ts) m := by
  rw [get_update]
  by_cases hm : m = n
  · subst hm
    simp only [if_pos rfl]
    exact mem_setUnion.mpr (Or.inl h)
  · simp only [if_neg hm]
    exact h

lemma runAssign_eq_transferChain (env : Env) (st : TermStore) (targets : List NodeId)
    (value : NodeId) :
    runAssign env st targets value = transferChain env st value targets.reverse := by
  have key : ∀ (l : List NodeId) (src : NodeId) (st : TermStore),
      (((src :: l).zip l).foldl
        (fun s p =>
          update_runtime_terms_of_definition_node env s p.2
            (get_runtime_terms_of_definition_node env s p.1)) st) =
        transferChain env st src l := by
    intro l
    induction l with
    | nil => intro src st; rfl
    | cons t rest ih =>
        intro src st
        rw [List.zip_cons_cons, List.foldl_cons]
        rw [ih]
        rfl
  have hchain : (targets ++ [value]).reverse = value :: targets.reverse := by simp
  simp only [runAssign, hchain, List.tail_cons]
  exact key targets.reverse value st

lemma handleNode_mono (env : Env) (node : PyNode) (ss : List ScopeNode) (st : TermStore)
    (m : NodeId) (x : RuntimeTerm) (h : x ∈ get_runtime_terms st m) :
    x ∈ get_runtime_terms (handleNode env node ss st).1 m := by
  obtain ⟨nid, kind, ln⟩ := node
  cases kind with
  | constant v => exact update_mono h
  | joinedStr => exact update_mono h
  | listDisplay => exact update_mono h
  | tupleDisplay => exact update_mono h
  | setDisplay => exact update_mono h
  | dictDisplay => exact update_mono h
  | call func =>
      show x ∈ get_runtime_terms (processCallCandidates _ _ _ _ _).store m
      rw [processCallCandidates_store]
      by_cases hm : m = env.defOf nid
      · simp only [hm, if_pos rfl]
        exact mem_setUnion.mpr (Or.inl (hm ▸ h))
      · simpa [hm] using h
  | attributeAccess value attr => exact update_mono h
  | namedExpr target value => exact update_mono h
  | listComp => exact update_mono h
  | setComp => exact update_mono h
  | generatorExp => exact update_mono h
  | dictComp => exact update_mono h
  | assign targets value =>
      show x ∈ get_runtime_terms (runAssign env st targets value) m
      rw [runAssign_eq_transferChain]
      exact transferChain_mono env targets.reverse value st m x h
  | annAssign target annot value? =>
      cases value? with
      | some v => exact update_mono h
      | none => exact h
  | functionDef => exact update_mono h
  | asyncFunctionDef => exact update_mono h
  | lambdaDef => exact update_mono h
  | classDef =>
      cases hc : env.classMap nid with
      | some c =>
          show x ∈ get_runtime_terms (handleNode env ⟨nid, NodeKind.classDef, ln⟩ ss st).1 m
          simp only [handleNode, hc]
          exact update_mono h
      | none =>
          show x ∈ get_runtime_terms (handleNode env ⟨nid, NodeKind.classDef, ln⟩ ss st).1 m
          simp only [handleNode, hc]
          exact h
  | other => exact h

end FindUsages
namespace FindUsages

/-- C1: the spec says each call candidate independently emits its own record
and a non-resolving candidate emits none; the code initializes the
`callee_*` variables before the candidate loop and never resets them, so a
non-resolving candidate iterated after a resolving one replays the stale
record.  Concretely: the `Instance` candidate below does not resolve, yet
with the resolving `FunctionDefinition` candidate iterated first the loop
prints two (identical) records, while the reverse order prints one. -/
theorem call_loop_stale_record_replay :
    (processCallCandidates exampleEnv exampleCI 0 []
        [RuntimeTerm.functionDefinition 10, RuntimeTerm.inst ⟨"mod_a", "C"⟩]).emitted
      = [mkRecord exampleCI ⟨"mod_a", "global", "foo", exampleFooU⟩,
         mkRecord exampleCI ⟨"mod_a", "global", "foo", exampleFooU⟩]
    ∧ (processCallCandidates exampleEnv exampleCI 0 []
        [RuntimeTerm.inst ⟨"mod_a", "C"⟩, RuntimeTerm.functionDefinition 10]).emitted
      = [mkRecord exampleCI ⟨"mod_a", "global", "foo", exampleFooU⟩]
    ∧ resolveCandidate exampleEnv (RuntimeTerm.inst ⟨"mod_a", "C"⟩) = none :=
  ⟨by decide, by decide, by decide⟩

/-- An update keyed at the same node with membership-equal term sets, on
membership-equal stores, yields membership-equal stores. -/
lemma update_mem_equiv {st1 st2 : TermStore} {ts1 ts2 : TermSet} (n : NodeId)
    (hst : ∀ m x, x ∈ get_runtime_terms st1 m ↔ x ∈ get_runtime_terms st2 m)
    (hts : ∀ x, x ∈ ts1 ↔ x ∈ ts2) :
    ∀ m x, x ∈ get_runtime_terms (update_runtime_terms st1 n ts1) m ↔
      x ∈ get_runtime_terms (update_runtime_terms st2 n ts2) m := by
  intro m x
  rw [get_update, get_update]
  by_cases hm : m = n
  · subst hm
    rw [if_pos rfl, if_pos rfl, mem_setUnion, mem_setUnion, hst m x, hts x]
  · rw [if_neg hm, if_neg hm]
    exact hst m x

lemma mem_resolvedInfos {env : Env} {l : List RuntimeTerm} {i : EmitInfo} :
    i ∈ resolvedInfos env l ↔
      (∃ t ∈ l, resolveCandidate env t = some i) ∧ i.truthy = true := by
  simp [resolvedInfos, List.mem_filter, List.mem_filterMap]

lemma mem_classInstanceGain {l : List RuntimeTerm} {x : RuntimeTerm} :
    x ∈ classInstanceGain l ↔
      ∃ c : RuntimeClass, RuntimeTerm.runtimeClass c ∈ l ∧ x = RuntimeTerm.inst c := by
  simp only [classInstanceGain, List.mem_filterMap]
  constructor
  · rintro ⟨t, ht, hf⟩
    cases t with
    | runtimeClass c =>
        injection hf with h
        exact ⟨c, ht, h.symm⟩
    | module nm => simp at hf
    | inst c => simp at hf
    | functionDefinition n => simp at hf
    | unwrapped f => simp at hf
    | unboundMethod c f => simp at hf
    | boundMethod c f => simp at hf
  · rintro ⟨c, hc, rfl⟩
    exact ⟨RuntimeTerm.runtimeClass c, hc, rfl⟩

lemma mem_attributeResults {env : Env} {l : List RuntimeTerm} {attr : String}
    {x : RuntimeTerm} :
    x ∈ attributeResults env l attr ↔ ∃ t ∈ l, env.getAttr t attr = some x := by
  rw [attributeResults, mem_setUnion]
  simp [List.mem_filterMap]

/-- The assignment transfer chain preserves membership-equivalence of
stores. -/
lemma transferChain_mem_equiv (env : Env) :
    ∀ (l : List NodeId) (src : NodeId) (st1 st2 : TermStore),
      (∀ m x, x ∈ get_runtime_terms st1 m ↔ x ∈ get_runtime_terms st2 m) →
      ∀ m x, x ∈ get_runtime_terms (transferChain env st1 src l) m ↔
        x ∈ get_runtime_terms (transferChain env st2 src l) m := by
  intro l
  induction l with
  | nil => intro src st1 st2 hst; exact hst
  | cons t rest ih =>
      intro src st1 st2 hst
      rw [transferChain, transferChain]
      exact ih t _ _ (update_mem_equiv (env.defOf t) hst (fun x => hst (env.defOf src) x))

/-- At the insertion-order enumeration the explicit-enumeration callback is
the callback itself. -/
lemma handleNodeEnum_id (env : Env) (node : PyNode) (ss : List ScopeNode)
    (st : TermStore) :
    handleNodeEnum env (fun l => l) node ss st = handleNode env node ss st := by
  obtain ⟨nid, kind, ln⟩ := node
  cases kind <;> rfl

/-- Simulation step: handling one node in two runs whose stores agree as
sets, with any two permutation-valid enumerations, prints the same record
set and leaves the stores agreeing as sets. -/
lemma handleNodeEnum_mem_equiv (env : Env)
    (e1 e2 : List RuntimeTerm → List RuntimeTerm)
    (he1 : ∀ l, (e1 l).Perm l) (he2 : ∀ l, (e2 l).Perm l)
    (node : PyNode) (ss : List ScopeNode) (st1 st2 : TermStore)
    (hst : ∀ m x, x ∈ get_runtime_terms st1 m ↔ x ∈ get_runtime_terms st2 m) :
    (∀ m x, x ∈ get_runtime_terms (handleNodeEnum env e1 node ss st1).1 m ↔
        x ∈ get_runtime_terms (handleNodeEnum env e2 node ss st2).1 m)
    ∧ (handleNodeEnum env e1 node ss st1).2.toFinset =
        (handleNodeEnum env e2 node ss st2).2.toFinset := by
  obtain ⟨nid, kind, ln⟩ := node
  cases kind with
  | constant v => exact ⟨update_mem_equiv _ hst (fun _ => Iff.rfl), rfl⟩
  | joinedStr => exact ⟨update_mem_equiv _ hst (fun _ => Iff.rfl), rfl⟩
  | listDisplay => exact ⟨update_mem_equiv _ hst (fun _ => Iff.rfl), rfl⟩
  | tupleDisplay => exact ⟨update_mem_equiv _ hst (fun _ => Iff.rfl), rfl⟩
  | setDisplay => exact ⟨update_mem_equiv _ hst (fun _ => Iff.rfl), rfl⟩
  | dictDisplay => exact ⟨update_mem_equiv _ hst (fun _ => Iff.rfl), rfl⟩
  | call func =>
      have hc : ∀ x, x ∈ e1 (get_runtime_terms_of_definition_node env st1 func) ↔
          x ∈ e2 (get_runtime_terms_of_definition_node env st2 func) := by
        intro x
        rw [(he1 _).mem_iff, (he2 _).mem_iff]
        exact hst (env.defOf func) x
      constructor
      · intro m x
        show x ∈ get_runtime_terms (processCallCandidates env _ _ st1 _).store m ↔
          x ∈ get_runtime_terms (processCallCandidates env _ _ st2 _).store m
        rw [processCallCandidates_store, processCallCandidates_store]
        by_cases hm : m = env.defOf nid
        · rw [if_pos hm, if_pos hm, mem_setUnion, mem_setUnion,
            mem_classInstanceGain, mem_classInstanceGain, hst m x]
          simp only [hc]
        · rw [if_neg hm, if_neg hm]
          exact hst m x
      · ext x
        simp only [List.mem_toFinset]
        show x ∈ (processCallCandidates env _ _ st1 _).emitted ↔
          x ∈ (processCallCandidates env _ _ st2 _).emitted
        rw [mem_processCallCandidates_emitted, mem_processCallCandidates_emitted]
        simp only [List.mem_map, mem_resolvedInfos, hc]
  | attributeAccess value attr =>
      have hc : ∀ x, x ∈ e1 (get_runtime_terms_of_definition_node env st1 value) ↔
          x ∈ e2 (get_runtime_terms_of_definition_node env st2 value) := by
        intro x
        rw [(he1 _).mem_iff, (he2 _).mem_iff]
        exact hst (env.defOf value) x
      refine ⟨update_mem_equiv _ hst ?_, rfl⟩
      intro x
      rw [mem_attributeResults, mem_attributeResults]
      simp only [hc]
  | namedExpr target value =>
      exact ⟨update_mem_equiv _ hst (fun x => hst (env.defOf value) x), rfl⟩
  | listComp => exact ⟨update_mem_equiv _ hst (fun _ => Iff.rfl), rfl⟩
  | setComp => exact ⟨update_mem_equiv _ hst (fun _ => Iff.rfl), rfl⟩
  | generatorExp => exact ⟨update_mem_equiv _ hst (fun _ => Iff.rfl), rfl⟩
  | dictComp => exact ⟨update_mem_equiv _ hst (fun _ => Iff.rfl), rfl⟩
  | assign targets value =>
      refine ⟨?_, rfl⟩
      intro m x
      show x ∈ get_runtime_terms (runAssign env st1 targets value) m ↔
        x ∈ get_runtime_terms (runAssign env st2 targets value) m
      rw [runAssign_eq_transferChain, runAssign_eq_transferChain]
      exact transferChain_mem_equiv env targets.reverse value st1 st2 hst m x
  | annAssign target annot value? =>
      cases value? with
      | some v => exact ⟨update_mem_equiv _ hst (fun x => hst (env.defOf v) x), rfl⟩
      | none => exact ⟨hst, rfl⟩
  | functionDef => exact ⟨update_mem_equiv _ hst (fun _ => Iff.rfl), rfl⟩
  | asyncFunctionDef => exact ⟨update_mem_equiv _ hst (fun _ => Iff.rfl), rfl⟩
  | lambdaDef => exact ⟨update_mem_equiv _ hst (fun _ => Iff.rfl), rfl⟩
  | classDef =>
      cases hcm : env.classMap nid with
      | some c =>
          constructor
          · intro m x
            show x ∈ get_runtime_terms
                (handleNodeEnum env e1 ⟨nid, NodeKind.classDef, ln⟩ ss st1).1 m ↔ _
            simp only [handleNodeEnum, hcm]
            exact update_mem_equiv _ hst (fun _ => Iff.rfl) m x
          · show (handleNodeEnum env e1 ⟨nid, NodeKind.classDef, ln⟩ ss st1).2.toFinset = _
            simp [handleNodeEnum, hcm]
      | none =>
          constructor
          · intro m x
            show x ∈ get_runtime_terms
                (handleNodeEnum env e1 ⟨nid, NodeKind.classDef, ln⟩ ss st1).1 m ↔ _
            simp only [handleNodeEnum, hcm]
            exact hst m x
          · show (handleNodeEnum env e1 ⟨nid, NodeKind.classDef, ln⟩ ss st1).2.toFinset = _
            simp [handleNodeEnum, hcm]
  | other => exact ⟨hst, rfl⟩

/-- Whole-pass simulation: folding the callback over the same visit
sequence in two runs, from stores that agree as sets and with any
permutation-valid enumeration oracles, ends with stores that agree as sets
and with the same set of printed records. -/
lemma runPass_mem_equiv (env : Env)
    (oracle1 oracle2 : Nat → List RuntimeTerm → List RuntimeTerm)
    (h1 : ∀ k l, (oracle1 k l).Perm l) (h2 : ∀ k l, (oracle2 k l).Perm l) :
    ∀ (visits : List (PyNode × List ScopeNode)) (k1 k2 : Nat)
      (st1 st2 : TermStore) (recs1 recs2 : List CallSiteRecord),
      (∀ m x, x ∈ get_runtime_terms st1 m ↔ x ∈ get_runtime_terms st2 m) →
      recs1.toFinset = recs2.toFinset →
      (∀ m x, x ∈ get_runtime_terms (runPass env oracle1 visits k1 st1 recs1).1 m ↔
          x ∈ get_runtime_terms (runPass env oracle2 visits k2 st2 recs2).1 m)
      ∧ (runPass env oracle1 visits k1 st1 recs1).2.toFinset =
          (runPass env oracle2 visits k2 st2 recs2).2.toFinset := by
  intro visits
  induction visits with
  | nil => intro k1 k2 st1 st2 recs1 recs2 hst hrecs; exact ⟨hst, hrecs⟩
  | cons p rest ih =>
      intro k1 k2 st1 st2 recs1 recs2 hst hrecs
      obtain ⟨node, ss⟩ := p
      rw [runPass, runPass]
      have hstep := handleNodeEnum_mem_equiv env (oracle1 k1) (oracle2 k2)
        (h1 k1) (h2 k2) node ss st1 st2 hst
      exact ih (k1 + 1) (k2 + 1) _ _ _ _ hstep.1
        (by rw [List.toFinset_append, List.toFinset_append, hrecs, hstep.2])

/-- C2: running the whole constraint-propagation pass twice over the same
unchanged tree yields identical sets of printed call-site records.  The
visit sequence is deterministic for a given tree (spec 4.4), the dummy-node
seeding iterates only insertion-ordered tables, and the only run-to-run
nondeterminism is the iteration order of Python sets; so a run is the fold
`runPass` under some permutation-valid enumeration oracle, and for every
visit sequence, every common initial store and any two such oracles the two
runs print the same record set (and end with the same per-node term sets),
even though C1's stale-replay bug makes the printed record *lists*
order-dependent. -/
theorem whole_pass_record_set_deterministic (env : Env)
    (visits : List (PyNode × List ScopeNode)) (st0 : TermStore)
    (oracle1 oracle2 : Nat → List RuntimeTerm → List RuntimeTerm)
    (h1 : ∀ k l, (oracle1 k l).Perm l) (h2 : ∀ k l, (oracle2 k l).Perm l) :
    (runPass env oracle1 visits 0 st0 []).2.toFinset =
      (runPass env oracle2 visits 0 st0 []).2.toFinset
    ∧ ∀ m, (get_runtime_terms (runPass env oracle1 visits 0 st0 []).1 m).toFinset =
        (get_runtime_terms (runPass env oracle2 visits 0 st0 []).1 m).toFinset := by
  have h := runPass_mem_equiv env oracle1 oracle2 h1 h2 visits 0 0 st0 st0 [] []
    (fun m x => Iff.rfl) rfl
  refine ⟨h.2, fun m => ?_⟩
  ext x
  simp only [List.mem_toFinset]
  exact h.1 m x

/-- Witness for C2: two runs over the same one-node visit sequence whose
enumeration oracles differ (insertion order versus reversed); because of
C1's stale replay the printed record lists differ — `[r, r]` versus `[r]` —
yet the record sets coincide, as do the final stores as sets. -/
theorem whole_pass_record_set_deterministic_witness :
    (∀ (k : Nat) (l : List RuntimeTerm),
      ((fun (_ : Nat) (l : List RuntimeTerm) => l) k l).Perm l)
    ∧ (∀ (k : Nat) (l : List RuntimeTerm),
      ((fun (_ : Nat) (l : List RuntimeTerm) => l.reverse) k l).Perm l)
    ∧ (runPass exampleEnv (fun _ l => l) [(exampleCallNode, exampleScopes)] 0
          exampleStaleStore []).2 ≠
        (runPass exampleEnv (fun _ l => l.reverse) [(exampleCallNode, exampleScopes)] 0
          exampleStaleStore []).2
    ∧ (runPass exampleEnv (fun _ l => l) [(exampleCallNode, exampleScopes)] 0
          exampleStaleStore []).2.toFinset =
        (runPass exampleEnv (fun _ l => l.reverse) [(exampleCallNode, exampleScopes)] 0
          exampleStaleStore []).2.toFinset
    ∧ ∀ m, (get_runtime_terms (runPass exampleEnv (fun _ l => l)
            [(exampleCallNode, exampleScopes)] 0 exampleStaleStore []).1 m).toFinset =
        (get_runtime_terms (runPass exampleEnv (fun _ l => l.reverse)
            [(exampleCallNode, exampleScopes)] 0 exampleStaleStore []).1 m).toFinset := by
  have h := whole_pass_record_set_deterministic exampleEnv
    [(exampleCallNode, exampleScopes)] exampleStaleStore
    (fun _ l => l) (fun _ l => l.reverse)
    (fun _ l => List.Perm.refl l) (fun _ l => List.reverse_perm l)
  exact ⟨fun _ l => List.Perm.refl l, fun _ l => List.reverse_perm l, by decide, h.1, h.2⟩

/-- C3: a literal node of a primitive type gets term set exactly
`{Instance(type-of-literal)}`; f-strings get `{Instance(str)}`, displays get
the corresponding container class, comprehensions likewise, and generator
expressions get `{Instance(Generator)}`. -/
theorem literal_rules_sound (env : Env) (nid : NodeId) (ln : Option Nat)
    (ss : List ScopeNode) (st : TermStore)
    (hdef : env.defMap nid = none) (hfresh : get_runtime_terms st nid = []) :
    (∀ v : ConstValue,
      get_runtime_terms (handleNode env ⟨nid, NodeKind.constant v, ln⟩ ss st).1 nid
        = [RuntimeTerm.inst v.pyType])
    ∧ get_runtime_terms (handleNode env ⟨nid, NodeKind.joinedStr, ln⟩ ss st).1 nid
        = [RuntimeTerm.inst strClass]
    ∧ get_runtime_terms (handleNode env ⟨nid, NodeKind.listDisplay, ln⟩ ss st).1 nid
        = [RuntimeTerm.inst listClass]
    ∧ get_runtime_terms (handleNode env ⟨nid, NodeKind.tupleDisplay, ln⟩ ss st).1 nid
        = [RuntimeTerm.inst tupleClass]
    ∧ get_runtime_terms (handleNode env ⟨nid, NodeKind.setDisplay, ln⟩ ss st).1 nid
        = [RuntimeTerm.inst setClass]
    ∧ get_runtime_terms (handleNode env ⟨nid, NodeKind.dictDisplay, ln⟩ ss st).1 nid
        = [RuntimeTerm.inst dictClass]
    ∧ get_runtime_terms (handleNode env ⟨nid, NodeKind.listComp, ln⟩ ss st).1 nid
        = [RuntimeTerm.inst listClass]
    ∧ get_runtime_terms (handleNode env ⟨nid, NodeKind.setComp, ln⟩ ss st).1 nid
        = [RuntimeTerm.inst setClass]
    ∧ get_runtime_terms (handleNode env ⟨nid, NodeKind.dictComp, ln⟩ ss st).1 nid
        = [RuntimeTerm.inst dictClass]
    ∧ get_runtime_terms (handleNode env ⟨nid, NodeKind.generatorExp, ln⟩ ss st).1 nid
        = [RuntimeTerm.inst generatorClass] := by
  refine ⟨fun v => ?_, ?_, ?_, ?_, ?_, ?_, ?_, ?_, ?_, ?_⟩ <;>
    simp [handleNode, update_runtime_terms_of_definition_node_from_runtime_class,
      update_runtime_terms_of_definition_node, get_update, Env.defOf, hdef, hfresh,
      setUnion_nil_single]

/-- Witness for C3: the literal `42` gets exactly `{Instance(int)}`. -/
theorem literal_rules_sound_witness :
    exampleEnvK.defMap 0 = none ∧ get_runtime_terms [] 0 = []
    ∧ get_runtime_terms
        (handleNode exampleEnvK ⟨0, NodeKind.constant (ConstValue.intLit 42), some 1⟩ [] []).1 0
      = [RuntimeTerm.inst intClass] :=
  ⟨rfl, rfl, (literal_rules_sound exampleEnvK 0 (some 1) [] [] rfl rfl).1 (ConstValue.intLit 42)⟩

/-- C4: for an assignment with chained targets, every target's definition
node ends up with the value's term set (targets are processed right-to-left,
each inheriting from its right neighbour at processing time), provided the
targets' definition nodes are distinct and start empty. -/
theorem assignment_chain_transfer (env : Env) (node : PyNode) (targets : List NodeId)
    (value : NodeId) (ss : List ScopeNode) (st : TermStore)
    (hk : node.kind = NodeKind.assign targets value)
    (hnd : (targets.map env.defOf).Nodup)
    (hfresh : ∀ t ∈ targets, get_runtime_terms st (env.defOf t) = []) :
    ∀ t ∈ targets,
      (get_runtime_terms (handleNode env node ss st).1 (env.defOf t)).toFinset =
        (get_runtime_terms st (env.defOf value)).toFinset := by
  intro t ht
  obtain ⟨nid, kind, ln⟩ := node
  subst hk
  show (get_runtime_terms (runAssign env st targets value) (env.defOf t)).toFinset = _
  rw [runAssign_eq_transferChain]
  refine transferChain_main env targets.reverse value st ?_ ?_ t ?_
  · rw [List.map_reverse, List.nodup_reverse]
    exact hnd
  · intro u hu
    exact hfresh u (List.mem_reverse.mp hu)
  · exact List.mem_reverse.mpr ht

/-- Witness for C4: `a = b = f()` with `f()`'s term set `{Instance(C)}`
gives both targets the set `{Instance(C)}`. -/
theorem assignment_chain_transfer_witness :
    exampleAssignNode.kind = NodeKind.assign [1, 2] 3
    ∧ (([1, 2].map exampleEnv.defOf).Nodup)
    ∧ (∀ t ∈ [1, 2], get_runtime_terms exampleAssignStore (exampleEnv.defOf t) = [])
    ∧ ∀ t ∈ [1, 2],
        (get_runtime_terms
            (handleNode exampleEnv exampleAssignNode [] exampleAssignStore).1
            (exampleEnv.defOf t)).toFinset =
          (get_runtime_terms exampleAssignStore (exampleEnv.defOf 3)).toFinset :=
  ⟨rfl, by decide, by decide,
   assignment_chain_transfer exampleEnv exampleAssignNode [1, 2] 3 [] exampleAssignStore
     rfl (by decide) (by decide)⟩

/-- C5: for `def foo(x): pass` bridged to a native counterpart and the call
`foo(1)` inside `bar`, the engine emits exactly one record with callee
`global.foo`, caller `bar`, the callee's source lines, the call line, the
caller's line span, and the double-quoted signature in the printed line. -/
theorem call_emission_example :
    handleNode exampleEnv exampleCallNode exampleScopes exampleStore
      = (exampleStore, [exampleRecord])
    ∧ exampleRecord.printedLine = "mod_a,global,foo,1,1,mod_a,bar,7,5,9,\"(x)\"" :=
  ⟨by decide, by decide⟩

/-- C6: for a `RuntimeClass` candidate, a record naming the class and its
unwrapped constructor is emitted iff the constructor is in the
native-to-definition mapping; and whenever a class term is among the
candidates the call node's definition node gains `Instance(class)`. -/
theorem class_call_resolution (env : Env) (ci : CallerInfo) (d : NodeId) (st : TermStore)
    (c : RuntimeClass) (hm : c.module ≠ "") (hn : c.name ≠ "")
    (hf : (env.getCtor c).name ≠ "") :
    ((processCallCandidates env ci d st [RuntimeTerm.runtimeClass c]).emitted =
        if (env.uToFdef (env.getCtor c)).isSome then
          [mkRecord ci ⟨c.module, c.name, (env.getCtor c).name, env.getCtor c⟩]
        else [])
    ∧ (∀ l : List RuntimeTerm, RuntimeTerm.runtimeClass c ∈ l →
        RuntimeTerm.inst c ∈
          get_runtime_terms (processCallCandidates env ci d st l).store d) := by
  constructor
  · have hinfo : EmitInfo.truthy ⟨c.module, c.name, (env.getCtor c).name, env.getCtor c⟩
        = true := by
      have h1 : (c.module == "") = false := beq_eq_false_iff_ne.mpr hm
      have h2 : (c.name == "") = false := beq_eq_false_iff_ne.mpr hn
      have h3 : ((env.getCtor c).name == "") = false := beq_eq_false_iff_ne.mpr hf
      simp [EmitInfo.truthy, h1, h2, h3]
    by_cases hsome : (env.uToFdef (env.getCtor c)).isSome = true
    · have hres : resolveCandidate env (RuntimeTerm.runtimeClass c) =
          some ⟨c.module, c.name, (env.getCtor c).name, env.getCtor c⟩ := by
        simp [resolveCandidate, hsome]
      rw [if_pos hsome]
      rw [processCallCandidates, List.foldl_cons, List.foldl_nil, callStep_def]
      simp [newAcc, hres, emitNow, hinfo]
    · have hres : resolveCandidate env (RuntimeTerm.runtimeClass c) = none := by
        simp [resolveCandidate, hsome]
      rw [if_neg hsome]
      rw [processCallCandidates, List.foldl_cons, List.foldl_nil, callStep_def]
      simp [newAcc, hres, emitNow]
  · intro l hl
    rw [processCallCandidates_store]
    simp only [if_pos rfl]
    refine mem_setUnion.mpr (Or.inr ?_)
    simp only [classInstanceGain, List.mem_filterMap]
    exact ⟨RuntimeTerm.runtimeClass c, hl, rfl⟩

/-- Witness for C6: a class whose constructor is in the mapping yields
exactly the constructor-naming record, and `Instance(K)` lands in the call
node's set. -/
theorem class_call_resolution_witness :
    exampleK.module ≠ "" ∧ exampleK.name ≠ ""
    ∧ (exampleEnvK.getCtor exampleK).name ≠ ""
    ∧ (processCallCandidates exampleEnvK exampleCI 0 []
          [RuntimeTerm.runtimeClass exampleK]).emitted =
        [mkRecord exampleCI ⟨"mod_a", "K", "__init__", exampleCtorU⟩]
    ∧ RuntimeTerm.inst exampleK ∈
        get_runtime_terms (processCallCandidates exampleEnvK exampleCI 0 []
          [RuntimeTerm.runtimeClass exampleK]).store 0 := by
  have h := class_call_resolution exampleEnvK exampleCI 0 [] exampleK
    (by decide) (by decide) (by decide)
  refine ⟨by decide, by decide, by decide, ?_, h.2 _ (by decide)⟩
  rw [h.1]
  decide

/-- C7 counterexample: an exception that is not an `ImportError` or
`UnicodeError` during one module's import aborts the whole import loop, and
any exception in the analysis loop aborts it, so later modules are not
unaffected as the claim states. -/
theorem import_loop_uncaught_exception_aborts :
    importModulesLoop [("mod_broken", Except.error PyExc.valueError),
        ("mod_ok", Except.ok (0 : Nat))] = Except.error PyExc.valueError
    ∧ importModulesLoop [("mod_broken", Except.error PyExc.valueError),
        ("mod_ok", Except.ok (0 : Nat))] ≠ Except.ok [("mod_ok", 0)]
    ∧ analyzeModulesLoop (fun _ r => r)
        [("mod_broken", Except.error PyExc.valueError), ("mod_ok", Except.ok (0 : Nat))]
      = Except.error PyExc.valueError :=
  ⟨rfl, fun h => Except.noConfusion h, rfl⟩

/-- The import loop skips caught-exception modules and keeps the rest. -/
lemma importLoop_all_caught {α : Type} :
    ∀ l : List (String × Except PyExc α),
      (∀ p ∈ l, ∀ e2, p.2 = Except.error e2 → caughtByImportLoop e2 = true) →
      importModulesLoop l = Except.ok (l.filterMap (fun p =>
        match p.2 with
        | Except.ok v => some (p.1, v)
        | Except.error _ => none)) := by
  intro l
  induction l with
  | nil => intro _; rfl
  | cons p l2 ih =>
      intro hl
      obtain ⟨nm, r⟩ := p
      cases r with
      | ok v =>
          rw [importModulesLoop, ih (fun q hq => hl q (List.mem_cons_of_mem _ hq))]
          rfl
      | error e2 =>
          have hc : caughtByImportLoop e2 = true :=
            hl (nm, Except.error e2) (List.mem_cons_self _ _) e2 rfl
          rw [importModulesLoop]
          simp only [hc, if_true]
          rw [ih (fun q hq => hl q (List.mem_cons_of_mem _ hq))]
          rfl

/-- The first uncaught exception aborts the import loop. -/
lemma importLoop_uncaught_aborts {α : Type} (name : String) (e : PyExc)
    (he : caughtByImportLoop e = false) :
    ∀ pre rest : List (String × Except PyExc α),
      (∀ p ∈ pre, ∀ e2, p.2 = Except.error e2 → caughtByImportLoop e2 = true) →
      importModulesLoop (pre ++ (name, Except.error e) :: rest) = Except.error e := by
  intro pre
  induction pre with
  | nil =>
      intro rest _
      rw [List.nil_append, importModulesLoop]
      simp [he]
  | cons p pre2 ih =>
      intro rest hpre
      obtain ⟨nm, r⟩ := p
      cases r with
      | ok v =>
          rw [List.cons_append, importModulesLoop,
            ih rest (fun q hq => hpre q (List.mem_cons_of_mem _ hq))]
          rfl
      | error e2 =>
          have hc : caughtByImportLoop e2 = true :=
            hpre (nm, Except.error e2) (List.mem_cons_self _ _) e2 rfl
          rw [List.cons_append, importModulesLoop]
          simp only [hc, if_true]
          exact ih rest (fun q hq => hpre q (List.mem_cons_of_mem _ hq))

/-- Any exception in the analysis loop aborts it. -/
lemma analyzeLoop_exception_aborts {α β : Type}
    (f : String → α → Except PyExc β) (name : String) (a : α) (e : PyExc)
    (hfa : f name a = Except.error e) :
    ∀ pre rest : List (String × α),
      (∀ p ∈ pre, ∃ b, f p.1 p.2 = Except.ok b) →
      analyzeModulesLoop f (pre ++ (name, a) :: rest) = Except.error e := by
  intro pre
  induction pre with
  | nil =>
      intro rest _
      rw [List.nil_append, analyzeModulesLoop, hfa]
  | cons p pre2 ih =>
      intro rest hfpre
      obtain ⟨b, hfb⟩ := hfpre p (List.mem_cons_self _ _)
      rw [List.cons_append, analyzeModulesLoop]
      rw [show f p.1 p.2 = Except.ok b from hfb]
      rw [ih rest (fun q hq => hfpre q (List.mem_cons_of_mem _ hq))]
      rfl

/-- C7 amended: only `ImportError`/`UnicodeError` during a module's import
are caught — the module is skipped and logged and the loop continues over
the rest; any other import exception aborts the import loop, and any
exception inside the per-module analysis loop aborts that loop, so later
modules are affected. -/
theorem import_loop_catches_import_and_unicode_errors {α β : Type}
    (l pre rest : List (String × Except PyExc α))
    (pre2 rest2 : List (String × Except PyExc α)) (name name2 : String) (e e2 : PyExc)
    (a : Except PyExc α) (f : String → Except PyExc α → Except PyExc β)
    (hl : ∀ p ∈ l, ∀ e3, p.2 = Except.error e3 → caughtByImportLoop e3 = true)
    (hpre : ∀ p ∈ pre, ∀ e3, p.2 = Except.error e3 → caughtByImportLoop e3 = true)
    (he : caughtByImportLoop e = false)
    (hfpre : ∀ p ∈ pre2, ∃ b, f p.1 p.2 = Except.ok b)
    (hfa : f name2 a = Except.error e2) :
    importModulesLoop l = Except.ok (l.filterMap (fun p =>
        match p.2 with
        | Except.ok v => some (p.1, v)
        | Except.error _ => none))
    ∧ importModulesLoop (pre ++ (name, Except.error e) :: rest) = Except.error e
    ∧ analyzeModulesLoop f (pre2 ++ (name2, a) :: rest2) = Except.error e2 :=
  ⟨importLoop_all_caught l hl,
   importLoop_uncaught_aborts name e he pre rest hpre,
   analyzeLoop_exception_aborts f name2 a e2 hfa pre2 rest2 hfpre⟩

/-- Witness for C7's amended claim at concrete module lists. -/
theorem import_loop_catches_witness :
    importModulesLoop ([("mod_x", Except.error PyExc.importError),
        ("mod_y", Except.ok (1 : Nat)), ("mod_z", Except.error PyExc.unicodeError)])
      = Except.ok [("mod_y", 1)]
    ∧ importModulesLoop ([("mod_x", Except.error PyExc.importError),
        ("mod_boom", Except.error PyExc.parseError), ("mod_y", Except.ok (1 : Nat))])
      = Except.error PyExc.parseError
    ∧ analyzeModulesLoop (fun _ r => r)
        ([("mod_w", Except.ok (1 : Nat)),
          ("mod_boom", Except.error PyExc.valueError), ("mod_y", Except.ok (2 : Nat))])
      = Except.error PyExc.valueError := by
  have h := import_loop_catches_import_and_unicode_errors
    ([("mod_x", Except.error PyExc.importError), ("mod_y", Except.ok (1 : Nat)),
      ("mod_z", Except.error PyExc.unicodeError)])
    ([("mod_x", Except.error PyExc.importError)]) ([("mod_y", Except.ok (1 : Nat))])
    ([("mod_w", Except.ok (1 : Nat))]) ([("mod_y", Except.ok (2 : Nat))])
    "mod_boom" "mod_boom" PyExc.parseError PyExc.valueError
    (Except.error PyExc.valueError) (fun _ r => r)
    (by
      intro p hp e3 hpe
      fin_cases hp <;> cases hpe <;> rfl)
    (by
      intro p hp e3 hpe
      fin_cases hp
      cases hpe
      rfl)
    rfl
    (by
      intro p hp
      simp only [List.mem_singleton] at hp
      subst hp
      exact ⟨1, rfl⟩)
    rfl
  refine ⟨?_, h.2.1, h.2.2⟩
  rw [h.1]
  rfl

end FindUsages
namespace FindUsages

/-- C8: a node's recorded term set only grows — an update yields the old
set's elements plus the new ones (Python's `setdefault(..).update(..)`),
never removing anything; a node never updated reads as the empty set; and no
rule of the callback removes an element from any node's set. -/
theorem runtime_terms_monotone :
    (∀ (st : TermStore) (n : NodeId) (ts : TermSet) (m : NodeId),
      get_runtime_terms (update_runtime_terms st n ts) m =
        if m = n then setUnion (get_runtime_terms st m) ts else get_runtime_terms st m)
    ∧ (∀ (st : TermStore) (n : NodeId) (ts : TermSet) (m : NodeId) (x : RuntimeTerm),
        x ∈ get_runtime_terms st m → x ∈ get_runtime_terms (update_runtime_terms st n ts) m)
    ∧ (∀ m : NodeId, get_runtime_terms [] m = [])
    ∧ (∀ (env : Env) (node : PyNode) (ss : List ScopeNode) (st : TermStore) (m : NodeId)
        (x : RuntimeTerm),
        x ∈ get_runtime_terms st m → x ∈ get_runtime_terms (handleNode env node ss st).1 m) :=
  ⟨get_update, fun _ _ _ _ _ h => update_mono h, fun _ => rfl,
   fun env node ss st m x h => handleNode_mono env node ss st m x h⟩

/-- Witness for C8: a concrete term survives a concrete handler step. -/
theorem runtime_terms_monotone_witness :
    RuntimeTerm.functionDefinition 10 ∈ get_runtime_terms exampleStore 10
    ∧ RuntimeTerm.functionDefinition 10 ∈
        get_runtime_terms
          (handleNode exampleEnv ⟨10, NodeKind.functionDef, some 1⟩ [] exampleStore).1 10 :=
  ⟨by decide,
   runtime_terms_monotone.2.2.2 exampleEnv ⟨10, NodeKind.functionDef, some 1⟩ [] exampleStore
     10 (RuntimeTerm.functionDefinition 10) (by decide)⟩

/-- C9: every record emitted for a call node takes its caller fields from
the last element of the scope stack alone — its `name` attribute when
present (`None` otherwise, e.g. for a lambda or comprehension scope) and its
line span — and the call line from the call node; with an empty scope stack
(module level) the caller fields are `None`. -/
theorem caller_attribution_innermost_scope (env : Env) (func : NodeId) (node : PyNode)
    (ss : List ScopeNode) (st : TermStore)
    (hk : node.kind = NodeKind.call func) :
    (∀ s, ss.getLast? = some s →
      ∀ r ∈ (handleNode env node ss st).2,
        r.callerModuleName = env.moduleName ∧
        r.callerFunctionName = s.getName ∧
        r.callerFunctionStart = s.getLineno ∧
        r.callerFunctionEnd = s.getEndLineno ∧
        r.callLine = node.lineno)
    ∧ (ss = [] →
      ∀ r ∈ (handleNode env node ss st).2,
        r.callerFunctionName = none ∧ r.callerFunctionStart = none ∧
        r.callerFunctionEnd = none ∧ r.callerModuleName = env.moduleName) := by
  obtain ⟨nid, kind, ln⟩ := node
  subst hk
  constructor
  · intro s hs r hr
    have hr2 : r ∈ (processCallCandidates env
        (callerInfoOf env.moduleName ⟨nid, NodeKind.call func, ln⟩ ss)
        (env.defOf nid) st
        (get_runtime_terms_of_definition_node env st func)).emitted := hr
    obtain ⟨i, rfl⟩ := processCallCandidates_caller env _ _ _ _ r hr2
    simp [mkRecord, callerInfoOf, hs]
  · intro hss r hr
    subst hss
    have hr2 : r ∈ (processCallCandidates env
        (callerInfoOf env.moduleName ⟨nid, NodeKind.call func, ln⟩ [])
        (env.defOf nid) st
        (get_runtime_terms_of_definition_node env st func)).emitted := hr
    obtain ⟨i, rfl⟩ := processCallCandidates_caller env _ _ _ _ r hr2
    simp [mkRecord, callerInfoOf]

/-- Witness for C9: a call emitted from inside a lambda nested in a named
function is attributed to the lambda (caller name `None`, the lambda's line
span), and the record list is non-empty, so the property is not vacuous. -/
theorem caller_attribution_witness :
    exampleCallNode.kind = NodeKind.call 21
    ∧ exampleLambdaScopes.getLast? = some (ScopeNode.lambdaScope 5 5)
    ∧ (handleNode exampleEnv exampleCallNode exampleLambdaScopes exampleStore).2 ≠ []
    ∧ ∀ r ∈ (handleNode exampleEnv exampleCallNode exampleLambdaScopes exampleStore).2,
        r.callerModuleName = exampleEnv.moduleName ∧
        r.callerFunctionName = (ScopeNode.lambdaScope 5 5).getName ∧
        r.callerFunctionStart = (ScopeNode.lambdaScope 5 5).getLineno ∧
        r.callerFunctionEnd = (ScopeNode.lambdaScope 5 5).getEndLineno ∧
        r.callLine = exampleCallNode.lineno :=
  ⟨rfl, rfl, by decide,
   (caller_attribution_innermost_scope exampleEnv 21 exampleCallNode exampleLambdaScopes
       exampleStore rfl).1 (ScopeNode.lambdaScope 5 5) rfl⟩

/-- C10: an annotated assignment without a value changes nothing; with a
value, only the value's terms are added to the target's definition node —
the result does not depend on the annotation expression, and no record is
printed. -/
theorem ann_assign_frame_effect (env : Env) (nid t a1 a2 v : NodeId) (ln : Option Nat)
    (ss : List ScopeNode) (st : TermStore) :
    handleNode env ⟨nid, NodeKind.annAssign t a1 none, ln⟩ ss st = (st, [])
    ∧ handleNode env ⟨nid, NodeKind.annAssign t a1 (some v), ln⟩ ss st =
        handleNode env ⟨nid, NodeKind.annAssign t a2 (some v), ln⟩ ss st
    ∧ (∀ m, get_runtime_terms
          (handleNode env ⟨nid, NodeKind.annAssign t a1 (some v), ln⟩ ss st).1 m =
        if m = env.defOf t then
          setUnion (get_runtime_terms st m) (get_runtime_terms st (env.defOf v))
        else get_runtime_terms st m)
    ∧ (handleNode env ⟨nid, NodeKind.annAssign t a1 (some v), ln⟩ ss st).2 = [] := by
  refine ⟨rfl, rfl, fun m => ?_, rfl⟩
  show get_runtime_terms
      (update_runtime_terms_of_definition_node env st t
        (get_runtime_terms_of_definition_node env st v)) m = _
  rw [update_runtime_terms_of_definition_node, get_update]
  rfl

end FindUsages
